import Mathlib

/-!
Shallow embedding of the himawari-client worker (Go, src/himawari-client.go).

The worker polls a coordinator for transcoding tasks (getTask), runs the
external ffmpeg tool on each task (Task.ffmpeg inside Task.procTask), and
uploads the produced artifact (Task.postVideo), under a buffered-channel
concurrency bound and an exponential-backoff polling loop (main).

Pure logic (argument building, backoff arithmetic, status/decode checks,
multipart body layout) is translated directly.  Effects are made explicit:
the filesystem is a map from path to contents, the outcome of each fallible
external step (temp-file creation, the external ffmpeg process, the upload)
is an explicit parameter, and the buffered channel bounding concurrency is a
step relation on the number of held slots.
-/

namespace Himawari

/-- Go constant ENCODING_EXT: the fixed output extension. -/
def ENCODING_EXT : String := ".mp4"

/-- Go constant ENCODING_PARALLEL_CORE: CPUs per encoding slot. -/
def ENCODING_PARALLEL_CORE : Nat := 8

/-- One second in nanoseconds, the unit of Go time.Duration. -/
def oneSecond : Nat := 1000000000

/-- Go constant LOOP_WAIT_DEFAULT = time.Second. -/
def LOOP_WAIT_DEFAULT : Nat := oneSecond

/-- Go constant LOOP_WAIT_MAX = 1000 * time.Second. -/
def LOOP_WAIT_MAX : Nat := 1000 * oneSecond

/-- The Task record decoded from the acquire-task JSON response. -/
structure Task where
  Id : String
  Size : Int
  Name : String
  PresetData : String
  Command : String
  Args : List String
deriving Repr, DecidableEq

/-- One iteration of the wait-interval logic of main's polling loop.
The loop body sets wait back to LOOP_WAIT_DEFAULT when the acquisition
succeeded, sleeps the current wait, then doubles wait and caps it at
LOOP_WAIT_MAX.  Returns (interval slept in this cycle, wait value entering
the next cycle). -/
def loopWaitCycle (acquired : Bool) (wait : Nat) : Nat × Nat :=
  let w := if acquired then LOOP_WAIT_DEFAULT else wait
  let w2 := w * 2
  let w3 := if w2 > LOOP_WAIT_MAX then LOOP_WAIT_MAX else w2
  (w, w3)

/-- A spawned subprocess invocation: program name and argument vector, the
information exec.CommandContext receives. -/
structure Invocation where
  prog : String
  args : List String
deriving Repr, DecidableEq

/-- The argument vector built by Task.ffmpeg: a fresh copy of t.Args
(make with capacity len+1, then copy), then the appended "-fpre" preset
reference, then the appended output path. -/
def ffmpegArgs (t : Task) (ppath outpath : String) : List String :=
  let args := t.Args
  let args := args ++ ["-fpre", ppath]
  let args := args ++ [outpath]
  args

/-- Task.ffmpeg up to the process spawn: any command other than "ffmpeg" is
rejected with an error before a command is built; otherwise ffmpeg is
spawned with ffmpegArgs.  The ok value stands for the spawned invocation
(the Go code returns cmd.String() and cmd.Run()). -/
def Task.ffmpeg (t : Task) (ppath outpath : String) : Except String Invocation :=
  if t.Command ≠ "ffmpeg" then Except.error "想定していないコマンド"
  else Except.ok ⟨"ffmpeg", ffmpegArgs t ppath outpath⟩

/-- Task.ffmpeg as a transformation of the pair (result, task): the Go method
never assigns to the receiver's fields and appends onto a freshly allocated
slice, so the task observed after the call is the task passed in. -/
def ffmpegBuild (t : Task) (ppath outpath : String) : Except String Invocation × Task :=
  (t.ffmpeg ppath outpath, t)

/-- Go filepath.Join base name restricted to its behaviour on a clean base
and a clean, separator-free file name: base + "/" + name.  The general
Join, whose result is passed through path cleaning, is goJoin below. -/
def joinPath (base name : String) : String := base ++ "/" ++ name

/-- The output artifact path chosen in procTask:
filepath.Join(base, t.Id + ENCODING_EXT), for separator-free ids. -/
def outputPath (base : String) (t : Task) : String :=
  joinPath base (t.Id ++ ENCODING_EXT)

/-- Whether a path is rooted (begins with a slash), as Go path.Clean
checks before processing the elements. -/
def isRooted (l : List Char) : Bool :=
  match l with
  | c :: _ => c = '/'
  | [] => false

/-- Splitting a character sequence at every slash, the element structure
Go path.Clean walks: separators delimit possibly empty elements. -/
def splitSlash : List Char → List (List Char)
  | [] => [[]]
  | c :: cs =>
    if c = '/' then [] :: splitSlash cs
    else
      match splitSlash cs with
      | [] => [[c]]
      | w :: ws => (c :: w) :: ws

/-- One element step of Go path.Clean, on the reversed list of elements
already emitted: empty elements and "." are dropped; ".." pops the last
emitted element when one is poppable, is dropped at the root of a rooted
path, and is kept when an unrooted path has nothing left to pop; every
other element is emitted. -/
def cleanStep (rooted : Bool) (acc : List (List Char)) (c : List Char) :
    List (List Char) :=
  if c = [] ∨ c = ['.'] then acc
  else if c = ['.', '.'] then
    match acc with
    | [] => if rooted then [] else [['.', '.']]
    | a :: rest => if a = ['.', '.'] then c :: acc else rest
  else c :: acc

/-- Reassembling cleaned elements with single slashes. -/
def joinComps : List (List Char) → List Char
  | [] => []
  | [w] => w
  | w :: ws => w ++ '/' :: joinComps ws

/-- Go path.Clean on characters: process the slash-separated elements left
to right, then reassemble, restoring the leading slash of a rooted path
and returning "." for a relative path that cleans to nothing. -/
def cleanPathChars (p : List Char) : List Char :=
  let rooted := isRooted p
  let comps := ((splitSlash p).foldl (cleanStep rooted) []).reverse
  if rooted then '/' :: joinComps comps
  else if comps = [] then ['.']
  else joinComps comps

/-- Go filepath.Clean. -/
def cleanPath (p : String) : String := String.mk (cleanPathChars p.data)

/-- Go filepath.Join(base, name): empty elements are skipped and the
slash-joined result is cleaned; the empty join is the empty string. -/
def goJoin (base name : String) : String :=
  if base = "" then if name = "" then "" else cleanPath name
  else if name = "" then cleanPath base
  else cleanPath (base ++ "/" ++ name)

/-- The output artifact path of procTask under the full Join model:
filepath.Join(base, t.Id + ENCODING_EXT) with path cleaning. -/
def outputPathJoin (base : String) (t : Task) : String :=
  goJoin base (t.Id ++ ENCODING_EXT)

/-- Filesystem model: a map from absolute path to file contents. -/
def FS := String → Option String

/-- The empty filesystem. -/
def FS.empty : FS := fun _ => none

/-- Creating (or truncating) a file at path p with contents c. -/
def FS.create (fs : FS) (p c : String) : FS :=
  fun q => if q = p then some c else fs q

/-- Go os.Remove on path p. -/
def FS.remove (fs : FS) (p : String) : FS :=
  fun q => if q = p then none else fs q

/-- Outcome of the fallible steps inside Task.preset. -/
inductive PresetOutcome
  | createFail
  | writeFail
  | ok
deriving Repr, DecidableEq

/-- Task.preset: os.CreateTemp picks the fresh name ppath; on CreateTemp
failure nothing is created; on WriteString failure the created file is
removed (os.Remove) before the error returns; on success the file holds
exactly t.PresetData and its path is returned. -/
def Task.preset (t : Task) (fs : FS) (ppath : String) :
    PresetOutcome → FS × Option String
  | .createFail => (fs, none)
  | .writeFail => (((fs.create ppath "").remove ppath), none)
  | .ok => (fs.create ppath t.PresetData, some ppath)

/-- Outcome of the external ffmpeg process once it has been spawned:
it can fail (non-zero exit, spawn error, or timeout) having produced the
output file or not, or finish successfully having produced it. -/
inductive FfmpegOutcome
  | failed (produced : Bool)
  | finished
deriving Repr, DecidableEq

/-- Filesystem effect of Task.ffmpeg: a command other than "ffmpeg" is
rejected before any process is spawned, so nothing is written; otherwise
the external process writes outpath (contents outContent) according to its
outcome.  The Bool is whether the Go call returned a nil error. -/
def Task.ffmpegFS (t : Task) (fs : FS) (outpath outContent : String)
    (o : FfmpegOutcome) : FS × Bool :=
  if t.Command ≠ "ffmpeg" then (fs, false)
  else
    match o with
    | .failed produced => ((if produced then fs.create outpath outContent else fs), false)
    | .finished => (fs.create outpath outContent, true)

/-- Task.procTask: preset, then ffmpeg, then postVideo, with the deferred
removals exactly as the source registers them: Remove(ppath) is deferred
right after preset succeeds; Remove(ename) is deferred only after the
ffmpeg call returns nil, so an ffmpeg failure runs only the ppath removal.
Deferred calls run in LIFO order.  postVideo never touches the filesystem,
so the upload outcome does not change the final state. -/
def Task.procTask (t : Task) (fs : FS) (base ppath outContent : String)
    (po : PresetOutcome) (fo : FfmpegOutcome) (uploadOk : Bool) : FS :=
  match t.preset fs ppath po with
  | (fs1, none) => fs1
  | (fs1, some pp) =>
    let ename := outputPath base t
    match t.ffmpegFS fs1 ename outContent fo with
    | (fs2, false) => fs2.remove pp
    | (fs2, true) =>
      let _ := uploadOk
      (fs2.remove ename).remove pp

/-- Typed errors of getTask. -/
inductive GetTaskError
  | noWork
  | decodeFail
  | emptyId
deriving Repr, DecidableEq

/-- getTask once the HTTP response has arrived: a status other than 200
is the no-work error; a JSON decode failure (the decode step is modelled
by its result) is an error; a decoded task with empty Id is an error;
otherwise the decoded task is returned. -/
def getTask (statusCode : Nat) (decoded : Except String Task) :
    Except GetTaskError Task :=
  if statusCode ≠ 200 then Except.error GetTaskError.noWork
  else
    match decoded with
    | .error _ => Except.error GetTaskError.decodeFail
    | .ok t => if t.Id = "" then Except.error GetTaskError.emptyId else Except.ok t

/-- The effect of one main-loop cycle on the filesystem, given the
acquisition result: main dispatches t.procTask (abstracted as run) exactly
when getTask returned a task, and on error only releases the slot, touching
nothing. -/
def cycleFS (r : Except GetTaskError Task) (fs : FS) (run : Task → FS → FS) : FS :=
  match r with
  | .ok t => run t fs
  | .error _ => fs

/-- One part of a multipart/form-data body. -/
inductive Part
  | field (name value : String)
  | filePart (name filename content : String)
deriving Repr, DecidableEq

/-- Which steps of the postVideo writer goroutine fail. -/
structure PostErrs where
  fieldErr : Bool
  createErr : Bool
  openErr : Bool
  copyErr : Bool
deriving Repr, DecidableEq

/-- Go filepath.Split, second component: the file name after the last
slash of the path. -/
def baseName (path : String) : String :=
  String.mk ((path.data.reverse.takeWhile (fun c => c ≠ '/')).reverse)

/-- The multipart body produced by the postVideo writer goroutine: it writes
the uuid field carrying t.Id, creates the videodata file part whose file
name is the base name of the artifact path ename, and copies the artifact
bytes into it, returning early at the first failing step (the pipe then
carries only the parts written so far).  Returns the parts in order and
whether the body was completed. -/
def postVideoBody (t : Task) (ename content : String) (e : PostErrs) :
    List Part × Bool :=
  if e.fieldErr then ([], false)
  else if e.createErr then ([Part.field "uuid" t.Id], false)
  else if e.openErr then
    ([Part.field "uuid" t.Id, Part.filePart "videodata" (baseName ename) ""], false)
  else if e.copyErr then
    ([Part.field "uuid" t.Id, Part.filePart "videodata" (baseName ename) ""], false)
  else
    ([Part.field "uuid" t.Id, Part.filePart "videodata" (baseName ename) content], true)

/-- The encoding parallelism chosen in main:
runtime.NumCPU() / ENCODING_PARALLEL_CORE, raised to 1 when that quotient
is not positive. -/
def parallelOf (numCPU : Nat) : Nat :=
  let parallel := numCPU / ENCODING_PARALLEL_CORE
  if parallel ≤ 0 then 1 else parallel

/-- Transitions of the buffered channel syncc of capacity cap, tracking how
many slots are held: a send (slot admission) can only happen while fewer
than cap slots are held, a receive (slot release) while at least one is. -/
inductive SlotStep (cap : Nat) : Nat → Nat → Prop
  | send {n : Nat} : n < cap → SlotStep cap n (n + 1)
  | release {n : Nat} : 0 < n → SlotStep cap n (n - 1)

/-- Slot counts reachable from the initial empty channel. -/
inductive SlotReachable (cap : Nat) : Nat → Prop
  | init : SlotReachable cap 0
  | step {a b : Nat} : SlotReachable cap a → SlotStep cap a b → SlotReachable cap b

/-- C1: in the main polling loop, after a failed task acquisition the wait
interval entering the next cycle is min(2w, LOOP_WAIT_MAX) where w is the
interval the failed cycle slept, and after a successful acquisition the
wait interval in effect for that cycle resets to LOOP_WAIT_DEFAULT, which
is one second; the ceiling LOOP_WAIT_MAX is 1000 seconds. -/
theorem backoff_next_wait (w : Nat) :
    (loopWaitCycle false w).1 = w ∧
    (loopWaitCycle false w).2 = min (2 * w) LOOP_WAIT_MAX ∧
    (loopWaitCycle true w).1 = LOOP_WAIT_DEFAULT ∧
    LOOP_WAIT_DEFAULT = oneSecond ∧ LOOP_WAIT_MAX = 1000 * oneSecond := by
  refine ⟨rfl, ?_, rfl, rfl, rfl⟩
  simp only [loopWaitCycle, Bool.false_eq_true, if_false]
  split <;> omega

/-- C3: a task whose Command is not the single recognized value "ffmpeg" is
rejected by Task.ffmpeg with an error, and no invocation is spawned. -/
theorem ffmpeg_rejects_unknown_command (t : Task) (ppath outpath : String)
    (h : t.Command ≠ "ffmpeg") :
    t.ffmpeg ppath outpath = Except.error "想定していないコマンド" ∧
    ∀ inv : Invocation, t.ffmpeg ppath outpath ≠ Except.ok inv := by
  constructor
  · simp [Task.ffmpeg, h]
  · intro inv hinv
    simp [Task.ffmpeg, h] at hinv

/-- Witness for C3 at a concrete task whose Command is "magick". -/
theorem ffmpeg_rejects_unknown_command_witness :
    Task.ffmpeg ⟨"abc", 0, "n", "x=1", "magick", ["-i", "in.mp4"]⟩ "/tmp/pre" "/tmp/out.mp4"
        = Except.error "想定していないコマンド" ∧
    ∀ inv : Invocation,
      Task.ffmpeg ⟨"abc", 0, "n", "x=1", "magick", ["-i", "in.mp4"]⟩ "/tmp/pre" "/tmp/out.mp4"
        ≠ Except.ok inv :=
  ffmpeg_rejects_unknown_command _ _ _ (by decide)

/-- C4: for the recognized command the spawned invocation passes the task's
arguments in their original order, then the "-fpre" preset-file reference,
then the output path as the final argument. -/
theorem ffmpeg_invocation_args (t : Task) (ppath outpath : String)
    (h : t.Command = "ffmpeg") :
    t.ffmpeg ppath outpath =
      Except.ok ⟨"ffmpeg", t.Args ++ ["-fpre", ppath, outpath]⟩ ∧
    (ffmpegArgs t ppath outpath).getLast? = some outpath := by
  constructor
  · simp [Task.ffmpeg, h, ffmpegArgs]
  · simp [ffmpegArgs]

/-- Witness for C4 at a concrete ffmpeg task. -/
theorem ffmpeg_invocation_args_witness :
    Task.ffmpeg ⟨"abc", 0, "n", "x=1", "ffmpeg", ["-i", "in.mp4"]⟩ "/tmp/pre" "/tmp/out.mp4"
        = Except.ok ⟨"ffmpeg", ["-i", "in.mp4"] ++ ["-fpre", "/tmp/pre", "/tmp/out.mp4"]⟩ ∧
    (ffmpegArgs ⟨"abc", 0, "n", "x=1", "ffmpeg", ["-i", "in.mp4"]⟩ "/tmp/pre" "/tmp/out.mp4").getLast?
        = some "/tmp/out.mp4" :=
  ffmpeg_invocation_args _ _ _ rfl

/-- C9: executing a task does not modify the Task value: the invocation is
built by appending to a fresh copy of the arguments, so the task observed
after the call (ffmpegBuild) is the task passed in, its Args field is
unchanged, and the built argument vector has t.Args as unmodified prefix. -/
theorem ffmpeg_task_frame (t : Task) (ppath outpath : String) :
    (ffmpegBuild t ppath outpath).2 = t ∧
    (ffmpegBuild t ppath outpath).2.Args = t.Args ∧
    (ffmpegArgs t ppath outpath).take t.Args.length = t.Args := by
  refine ⟨rfl, rfl, ?_⟩
  simp only [ffmpegArgs]
  rw [List.append_assoc]
  exact List.take_left _ _

/-- Helper: splitSlash never yields an empty element list. -/
theorem splitSlash_ne_nil (l : List Char) : splitSlash l ≠ [] := by
  cases l with
  | nil => simp [splitSlash]
  | cons c cs =>
    simp only [splitSlash]
    split
    · simp
    · cases h : splitSlash cs with
      | nil => simp
      | cons w ws => simp

/-- Helper: splitting distributes over a separator occurrence. -/
theorem splitSlash_append (l1 l2 : List Char) :
    splitSlash (l1 ++ '/' :: l2) = splitSlash l1 ++ splitSlash l2 := by
  induction l1 with
  | nil => simp [splitSlash]
  | cons c cs ih =>
    simp only [List.cons_append, splitSlash, List.append_eq]
    by_cases hc : c = '/'
    · simp [hc, ih]
    · rw [if_neg hc, if_neg hc, ih]
      cases h : splitSlash cs with
      | nil => exact absurd h (splitSlash_ne_nil cs)
      | cons w ws => simp

/-- Helper: a separator-free sequence is a single element. -/
theorem splitSlash_eq_single (l : List Char) (h : ∀ c ∈ l, c ≠ '/') :
    splitSlash l = [l] := by
  induction l with
  | nil => simp [splitSlash]
  | cons c cs ih =>
    have hc : c ≠ '/' := h c (by simp)
    simp only [splitSlash, if_neg hc]
    rw [ih (fun b hb => h b (by simp [hb]))]

/-- Helper: a normal element (neither empty nor "." nor "..") is emitted
onto the accumulator unchanged. -/
theorem cleanStep_normal (rooted : Bool) (acc : List (List Char)) (c : List Char)
    (h : 3 ≤ c.length) : cleanStep rooted acc c = c :: acc := by
  have h1 : ¬ (c = [] ∨ c = ['.']) := by
    rintro (rfl | rfl) <;> simp at h
  have h2 : c ≠ ['.', '.'] := by
    rintro rfl
    simp at h
  simp [cleanStep, h1, h2]

/-- Helper: joining a cons with a nonempty tail inserts one separator. -/
theorem joinComps_cons (w : List Char) (ws : List (List Char)) (h : ws ≠ []) :
    joinComps (w :: ws) = w ++ '/' :: joinComps ws := by
  cases ws with
  | nil => exact absurd rfl h
  | cons x xs => rfl

/-- Helper: two joins sharing their leading elements and each ending in a
single final element agree only when the final elements do. -/
theorem joinComps_append_inj (X : List (List Char)) (n1 n2 : List Char)
    (h : joinComps (X ++ [n1]) = joinComps (X ++ [n2])) : n1 = n2 := by
  induction X with
  | nil => simpa [joinComps] using h
  | cons w ws ih =>
    rw [List.cons_append, List.cons_append, joinComps_cons _ _ (by simp),
      joinComps_cons _ _ (by simp)] at h
    have h2 := List.append_cancel_left h
    injection h2 with h2a h2b
    exact ih h2b

/-- Helper: a path of non-separator characters is not rooted. -/
theorem isRooted_nosep (l : List Char) (h : ∀ c ∈ l, c ≠ '/') :
    isRooted l = false := by
  cases l with
  | nil => rfl
  | cons c cs =>
    have hc : c ≠ '/' := h c (by simp)
    simp [isRooted, hc]

/-- Helper: rootedness of an extended path looks only at the head. -/
theorem isRooted_append (b x : List Char) (hb : b ≠ []) :
    isRooted (b ++ x) = isRooted b := by
  cases b with
  | nil => exact absurd rfl hb
  | cons c cs => rfl

/-- Helper: cleaning a nonempty-prefixed path whose final element is
separator-free and normal is injective in that final element. -/
theorem cleanPathChars_inj (b n1 n2 : List Char) (hb : b ≠ [])
    (h1 : ∀ c ∈ n1, c ≠ '/') (h2 : ∀ c ∈ n2, c ≠ '/')
    (hl1 : 3 ≤ n1.length) (hl2 : 3 ≤ n2.length)
    (heq : cleanPathChars (b ++ '/' :: n1) = cleanPathChars (b ++ '/' :: n2)) :
    n1 = n2 := by
  simp only [cleanPathChars] at heq
  rw [isRooted_append b ('/' :: n1) hb, isRooted_append b ('/' :: n2) hb,
    splitSlash_append, splitSlash_append,
    splitSlash_eq_single n1 h1, splitSlash_eq_single n2 h2,
    List.foldl_append, List.foldl_append] at heq
  simp only [List.foldl_cons, List.foldl_nil] at heq
  rw [cleanStep_normal _ _ _ hl1, cleanStep_normal _ _ _ hl2] at heq
  simp only [List.reverse_cons] at heq
  cases hr : isRooted b with
  | true =>
    rw [hr] at heq
    simp only [if_true] at heq
    injection heq with heqa heqb
    exact joinComps_append_inj _ _ _ heqb
  | false =>
    rw [hr] at heq
    simp only [Bool.false_eq_true, if_false] at heq
    rw [if_neg (by simp), if_neg (by simp)] at heq
    exact joinComps_append_inj _ _ _ heq

/-- Helper: a separator-free normal element cleans to itself. -/
theorem cleanPathChars_nosep (n : List Char) (hn : ∀ c ∈ n, c ≠ '/')
    (hlen : 3 ≤ n.length) : cleanPathChars n = n := by
  simp only [cleanPathChars]
  rw [isRooted_nosep n hn, splitSlash_eq_single n hn]
  simp only [List.foldl_cons, List.foldl_nil]
  rw [cleanStep_normal _ _ _ hlen]
  simp [joinComps]

/-- C7 counterexample: under filepath.Join's path cleaning, distinct task
ids can collide on the same output artifact path: ids "./a" and "a" under
working directory "/tmp" both map to /tmp/a.mp4, refuting the unrestricted
distinct-ids-yield-distinct-paths claim. -/
theorem outputPath_collision :
    (⟨"./a", 0, "n", "x=1", "ffmpeg", []⟩ : Task).Id
        ≠ (⟨"a", 0, "n", "x=1", "ffmpeg", []⟩ : Task).Id ∧
    outputPathJoin "/tmp" ⟨"./a", 0, "n", "x=1", "ffmpeg", []⟩
        = outputPathJoin "/tmp" ⟨"a", 0, "n", "x=1", "ffmpeg", []⟩ ∧
    outputPathJoin "/tmp" ⟨"a", 0, "n", "x=1", "ffmpeg", []⟩ = "/tmp/a.mp4" := by
  refine ⟨by decide, by decide, by decide⟩

/-- C7 (amended): under the full Join model with path cleaning, the output
artifact path is filepath.Join(base, t.Id + ".mp4"), deterministic in the
task id, and distinct separator-free task ids yield distinct paths (ids
that cleaning rewrites, such as "./a" against "a", may collide). -/
theorem outputPathJoin_by_id (base : String) (t u : Task)
    (ht : ∀ c ∈ t.Id.data, c ≠ '/') (hu : ∀ c ∈ u.Id.data, c ≠ '/') :
    outputPathJoin base t = goJoin base (t.Id ++ ENCODING_EXT) ∧
    (t.Id = u.Id → outputPathJoin base t = outputPathJoin base u) ∧
    (t.Id ≠ u.Id → outputPathJoin base t ≠ outputPathJoin base u) := by
  have hext : ∀ c ∈ ENCODING_EXT.data, c ≠ '/' := by decide
  have hnt : ∀ c ∈ (t.Id ++ ENCODING_EXT).data, c ≠ '/' := by
    intro c hc
    rw [String.data_append] at hc
    rcases List.mem_append.mp hc with hm | hm
    · exact ht c hm
    · exact hext c hm
  have hnu : ∀ c ∈ (u.Id ++ ENCODING_EXT).data, c ≠ '/' := by
    intro c hc
    rw [String.data_append] at hc
    rcases List.mem_append.mp hc with hm | hm
    · exact hu c hm
    · exact hext c hm
  have hlt : 3 ≤ (t.Id ++ ENCODING_EXT).data.length := by
    rw [String.data_append]
    simp only [List.length_append]
    have : ENCODING_EXT.data.length = 4 := by decide
    omega
  have hlu : 3 ≤ (u.Id ++ ENCODING_EXT).data.length := by
    rw [String.data_append]
    simp only [List.length_append]
    have : ENCODING_EXT.data.length = 4 := by decide
    omega
  have hempty : ("" : String).data = [] := by decide
  have hne_t : (t.Id ++ ENCODING_EXT) ≠ "" := by
    intro hx
    have hd := congrArg String.data hx
    rw [String.data_append, hempty] at hd
    exact absurd (List.append_eq_nil.mp hd).2 (by decide)
  have hne_u : (u.Id ++ ENCODING_EXT) ≠ "" := by
    intro hx
    have hd := congrArg String.data hx
    rw [String.data_append, hempty] at hd
    exact absurd (List.append_eq_nil.mp hd).2 (by decide)
  refine ⟨rfl, ?_, ?_⟩
  · intro h
    simp only [outputPathJoin, h]
  · intro hne heq
    apply hne
    simp only [outputPathJoin, goJoin] at heq
    by_cases hbase : base = ""
    · rw [if_pos hbase, if_pos hbase, if_neg hne_t, if_neg hne_u] at heq
      have hchars := congrArg String.data heq
      simp only [cleanPath] at hchars
      rw [cleanPathChars_nosep _ hnt hlt, cleanPathChars_nosep _ hnu hlu] at hchars
      rw [String.data_append, String.data_append] at hchars
      exact String.ext (List.append_cancel_right hchars)
    · rw [if_neg hbase, if_neg hbase, if_neg hne_t, if_neg hne_u] at heq
      have hchars := congrArg String.data heq
      simp only [cleanPath] at hchars
      have hb : base.data ≠ [] := by
        intro hx
        exact hbase (String.ext hx)
      have hform : ∀ s : String, (base ++ "/" ++ s).data = base.data ++ '/' :: s.data := by
        intro s
        rw [String.data_append, String.data_append,
          (by decide : ("/" : String).data = ['/']), List.append_assoc,
          List.singleton_append]
      rw [hform, hform] at hchars
      have hids := cleanPathChars_inj base.data _ _ hb hnt hnu hlt hlu hchars
      rw [String.data_append, String.data_append] at hids
      exact String.ext (List.append_cancel_right hids)

/-- Witness for C7 at concrete separator-free ids "a" and "b". -/
theorem outputPathJoin_by_id_witness :
    outputPathJoin "/tmp" ⟨"a", 0, "n", "x=1", "ffmpeg", []⟩ ≠
      outputPathJoin "/tmp" ⟨"b", 0, "n", "x=1", "ffmpeg", []⟩ :=
  (outputPathJoin_by_id "/tmp" _ _ (by decide) (by decide)).2.2 (by decide)

/-- C8: the pool size parallelOf numCPU equals numCPU / 8 raised to one
when the quotient is not positive, hence is at least one for every CPU
count, and every reachable held-slot count of the admission channel with
that capacity never exceeds the pool size. -/
theorem pool_bound (numCPU n : Nat)
    (h : SlotReachable (parallelOf numCPU) n) :
    n ≤ parallelOf numCPU ∧ 1 ≤ parallelOf numCPU := by
  have hpos : 1 ≤ parallelOf numCPU := by
    simp only [parallelOf]
    split <;> omega
  refine ⟨?_, hpos⟩
  induction h with
  | init => omega
  | step ha hs ih =>
    cases hs with
    | send hlt => omega
    | release hn => omega

/-- Witness for C8: a concrete reachable state (one admitted slot, 16 CPUs,
pool size two) respects the bound. -/
theorem pool_bound_witness : 1 ≤ parallelOf 16 ∧ 1 ≤ parallelOf 16 :=
  pool_bound 16 1 (SlotReachable.step SlotReachable.init (SlotStep.send (by decide)))

/-- C5: getTask returns a task exactly when the status is 200, the body
decoded into a Task, and the decoded Id is non-empty; a non-200 status, a
decode failure, and an empty Id each yield the corresponding typed error,
and an empty-id task is discarded: the main-loop cycle dispatches no
execution and the filesystem is untouched. -/
theorem getTask_spec (sc : Nat) (decoded : Except String Task) :
    (∀ t, getTask sc decoded = Except.ok t ↔
        sc = 200 ∧ decoded = Except.ok t ∧ t.Id ≠ "") ∧
    (sc ≠ 200 → getTask sc decoded = Except.error GetTaskError.noWork) ∧
    (∀ e, sc = 200 → decoded = Except.error e →
        getTask sc decoded = Except.error GetTaskError.decodeFail) ∧
    (∀ t, sc = 200 → decoded = Except.ok t → t.Id = "" →
        getTask sc decoded = Except.error GetTaskError.emptyId ∧
        ∀ fs run, cycleFS (getTask sc decoded) fs run = fs) := by
  refine ⟨?_, ?_, ?_, ?_⟩
  · intro t
    constructor
    · intro h
      by_cases hsc : sc = 200
      · subst hsc
        cases decoded with
        | error e => simp [getTask] at h
        | ok t0 =>
          by_cases hid : t0.Id = ""
          · simp [getTask, hid] at h
          · simp [getTask, hid] at h
            subst h
            exact ⟨rfl, rfl, hid⟩
      · simp [getTask, hsc] at h
    · rintro ⟨hsc, hdec, hid⟩
      subst hsc
      subst hdec
      simp [getTask, hid]
  · intro hsc
    simp [getTask, hsc]
  · intro e hsc hdec
    subst hsc
    subst hdec
    simp [getTask]
  · intro t hsc hdec hid
    subst hsc
    subst hdec
    refine ⟨by simp [getTask, hid], ?_⟩
    intro fs run
    simp [getTask, hid, cycleFS]

/-- Witness for C5: a 200 response decoding to an empty-id task yields the
empty-id error, and the cycle touches nothing. -/
theorem getTask_spec_witness :
    getTask 200 (Except.ok ⟨"", 0, "n", "x=1", "ffmpeg", []⟩)
        = Except.error GetTaskError.emptyId ∧
    ∀ fs run,
      cycleFS (getTask 200 (Except.ok ⟨"", 0, "n", "x=1", "ffmpeg", []⟩)) fs run = fs :=
  (getTask_spec 200 _).2.2.2 _ rfl rfl rfl

/-- Helper: takeWhile over a block of elements satisfying p, followed by an
element refuting p, returns exactly the leading block. -/
theorem takeWhile_append_stop {α : Type} (p : α → Bool) (l1 l2 : List α) (c : α)
    (h1 : ∀ a ∈ l1, p a = true) (hc : p c = false) :
    (l1 ++ c :: l2).takeWhile p = l1 := by
  induction l1 with
  | nil => simp [List.takeWhile_cons, hc]
  | cons a l ih =>
    have ha : p a = true := h1 a (by simp)
    simp only [List.cons_append, List.takeWhile_cons, ha, if_true]
    rw [ih (fun b hb => h1 b (by simp [hb]))]

/-- Helper: for a task id without path separators, the file name component
(filepath.Split) of the output artifact path is the id plus the fixed
extension. -/
theorem baseName_outputPath (base : String) (t : Task)
    (h : ∀ c ∈ t.Id.data, c ≠ '/') :
    baseName (outputPath base t) = t.Id ++ ENCODING_EXT := by
  have hdata : (outputPath base t).data
      = (base.data ++ ['/']) ++ (t.Id.data ++ ENCODING_EXT.data) := by
    simp [outputPath, joinPath, String.data_append]
  have hext : ∀ c ∈ ENCODING_EXT.data, c ≠ '/' := by decide
  have hall : ∀ a ∈ (t.Id.data ++ ENCODING_EXT.data).reverse,
      (fun c => decide (c ≠ '/')) a = true := by
    intro a ha
    rw [List.mem_reverse] at ha
    rw [decide_eq_true_eq]
    rcases List.mem_append.mp ha with hmem | hmem
    · exact h a hmem
    · exact hext a hmem
  have hsplit : (base.data ++ ['/'] ++ (t.Id.data ++ ENCODING_EXT.data)).reverse
      = (t.Id.data ++ ENCODING_EXT.data).reverse ++ '/' :: base.data.reverse := by
    rw [List.reverse_append, List.reverse_append, List.reverse_append,
      List.reverse_singleton, List.singleton_append]
  simp only [baseName, hdata]
  rw [hsplit, takeWhile_append_stop _ _ _ _ hall (by decide), List.reverse_reverse]
  exact String.ext (String.data_append _ _).symm

/-- C6: the multipart body built by postVideo has exactly two parts in
fixed order: the text field "uuid" carrying the task id, then the file part
"videodata" whose file name is the base name of the artifact path and whose
content is the artifact bytes; for the artifact path procTask passes (a
slash-free task id under the working directory) that file name is the id
plus ".mp4". -/
theorem postVideo_body_parts (t : Task) (ename content : String)
    (h : ∀ c ∈ t.Id.data, c ≠ '/') :
    postVideoBody t ename content ⟨false, false, false, false⟩ =
      ([Part.field "uuid" t.Id,
        Part.filePart "videodata" (baseName ename) content], true) ∧
    ∀ base, baseName (outputPath base t) = t.Id ++ ENCODING_EXT := by
  constructor
  · simp [postVideoBody]
  · intro base
    exact baseName_outputPath base t h

/-- Witness for C6 at a concrete task and path. -/
theorem postVideo_body_parts_witness :
    postVideoBody ⟨"abc", 0, "n", "x=1", "ffmpeg", []⟩ "/tmp/abc.mp4" "BYTES"
        ⟨false, false, false, false⟩ =
      ([Part.field "uuid" "abc",
        Part.filePart "videodata" (baseName "/tmp/abc.mp4") "BYTES"], true) ∧
    ∀ base, baseName (outputPath base ⟨"abc", 0, "n", "x=1", "ffmpeg", []⟩)
        = "abc" ++ ENCODING_EXT :=
  postVideo_body_parts _ _ _ (by decide)

/-- C10: preset is atomic on error: with ppath the fresh name chosen by
os.CreateTemp (no file exists there yet), a successful return hands back
that path with the file holding exactly t.PresetData, and an error return
leaves the filesystem pointwise as it was, in particular with no preset
file behind. -/
theorem preset_atomic (t : Task) (fs : FS) (ppath : String) (o : PresetOutcome)
    (hfresh : fs ppath = none) :
    (∀ pp, (t.preset fs ppath o).2 = some pp →
        pp = ppath ∧ (t.preset fs ppath o).1 pp = some t.PresetData) ∧
    ((t.preset fs ppath o).2 = none → ∀ q, (t.preset fs ppath o).1 q = fs q) := by
  cases o with
  | createFail =>
    exact ⟨fun pp hpp => by simp [Task.preset] at hpp, fun _ q => rfl⟩
  | writeFail =>
    refine ⟨fun pp hpp => by simp [Task.preset] at hpp, fun _ q => ?_⟩
    simp only [Task.preset, FS.create, FS.remove]
    by_cases hq : q = ppath
    · simp [hq, hfresh]
    · simp [hq]
  | ok =>
    refine ⟨fun pp hpp => ?_, fun hnone => by simp [Task.preset] at hnone⟩
    simp only [Task.preset, Option.some.injEq] at hpp
    subst hpp
    exact ⟨rfl, by simp [Task.preset, FS.create]⟩

/-- Witness for C10: on a concrete empty filesystem, a successful preset
leaves the payload at the returned path, and a write failure leaves the
filesystem untouched. -/
theorem preset_atomic_witness :
    ("/tmp/ffmpeg-preset-1" = "/tmp/ffmpeg-preset-1" ∧
      (Task.preset ⟨"abc", 0, "n", "x=1", "ffmpeg", []⟩ FS.empty
          "/tmp/ffmpeg-preset-1" PresetOutcome.ok).1 "/tmp/ffmpeg-preset-1"
        = some "x=1") := by
  exact (preset_atomic ⟨"abc", 0, "n", "x=1", "ffmpeg", []⟩ FS.empty
      "/tmp/ffmpeg-preset-1" PresetOutcome.ok rfl).1 "/tmp/ffmpeg-preset-1" rfl

/-- C2 counterexample: a pipeline whose external-tool stage fails after the
tool already produced the output file leaves the output artifact on disk:
task id "abc", working directory "/tmp", preset path "/tmp/ffmpeg-preset-1",
ffmpeg failing with the output produced; after procTask completes, the path
/tmp/abc.mp4 still holds the artifact, contradicting unconditional cleanup. -/
theorem procTask_leaves_artifact :
    Task.procTask ⟨"abc", 0, "n", "x=1", "ffmpeg", []⟩ FS.empty "/tmp"
        "/tmp/ffmpeg-preset-1" "DATA" PresetOutcome.ok (FfmpegOutcome.failed true) true
        "/tmp/abc.mp4" = some "DATA" := by
  decide

/-- C2 amended: after procTask completes, the preset file never remains on
disk; the output artifact does not remain either, except in exactly one
case: the command was recognized, the preset was written, and the external
tool failed after producing the output, in which case the artifact remains
because its deferred removal is registered only after a successful ffmpeg
return. -/
theorem procTask_cleanup (t : Task) (fs : FS) (base ppath outContent : String)
    (po : PresetOutcome) (fo : FfmpegOutcome) (u : Bool)
    (hp : fs ppath = none) (he : fs (outputPath base t) = none)
    (hne : ppath ≠ outputPath base t) :
    Task.procTask t fs base ppath outContent po fo u ppath = none ∧
    ((po = PresetOutcome.ok ∧ fo = FfmpegOutcome.failed true ∧ t.Command = "ffmpeg") →
      Task.procTask t fs base ppath outContent po fo u (outputPath base t)
        = some outContent) ∧
    (¬ (po = PresetOutcome.ok ∧ fo = FfmpegOutcome.failed true ∧ t.Command = "ffmpeg") →
      Task.procTask t fs base ppath outContent po fo u (outputPath base t) = none) := by
  have hne2 : outputPath base t ≠ ppath := fun hx => hne hx.symm
  cases po with
  | createFail =>
    refine ⟨hp, ?_, ?_⟩
    · rintro ⟨hpo, -, -⟩
      exact absurd hpo (by simp)
    · intro _
      exact he
  | writeFail =>
    refine ⟨?_, ?_, ?_⟩
    · simp [Task.procTask, Task.preset, FS.create, FS.remove, hp]
    · rintro ⟨hpo, -, -⟩
      exact absurd hpo (by simp)
    · intro _
      simp [Task.procTask, Task.preset, FS.create, FS.remove, hne2, he]
  | ok =>
    by_cases hc : t.Command = "ffmpeg"
    · cases fo with
      | failed produced =>
        cases produced with
        | false =>
          refine ⟨?_, ?_, ?_⟩
          · simp [Task.procTask, Task.preset, Task.ffmpegFS, hc, FS.create, FS.remove]
          · rintro ⟨-, hfo, -⟩
            exact absurd hfo (by simp)
          · intro _
            simp [Task.procTask, Task.preset, Task.ffmpegFS, hc, FS.create, FS.remove,
              hne2, he]
        | true =>
          refine ⟨?_, ?_, ?_⟩
          · simp [Task.procTask, Task.preset, Task.ffmpegFS, hc, FS.create, FS.remove]
          · intro _
            simp [Task.procTask, Task.preset, Task.ffmpegFS, hc, FS.create, FS.remove,
              hne2]
          · intro hno
            exact absurd ⟨rfl, rfl, hc⟩ hno
      | finished =>
        refine ⟨?_, ?_, ?_⟩
        · simp [Task.procTask, Task.preset, Task.ffmpegFS, hc, FS.create, FS.remove]
        · rintro ⟨-, hfo, -⟩
          exact absurd hfo (by simp)
        · intro _
          simp [Task.procTask, Task.preset, Task.ffmpegFS, hc, FS.create, FS.remove, hne2]
    · refine ⟨?_, ?_, ?_⟩
      · simp [Task.procTask, Task.preset, Task.ffmpegFS, hc, FS.create, FS.remove]
      · rintro ⟨-, -, hcmd⟩
        exact absurd hcmd hc
      · intro _
        simp [Task.procTask, Task.preset, Task.ffmpegFS, hc, FS.create, FS.remove,
          hne2, he]

/-- Witness for C2 (amended): a concrete fully successful pipeline removes
both the preset file and the output artifact. -/
theorem procTask_cleanup_witness :
    Task.procTask ⟨"abc", 0, "n", "x=1", "ffmpeg", []⟩ FS.empty "/tmp"
        "/tmp/ffmpeg-preset-1" "DATA" PresetOutcome.ok FfmpegOutcome.finished true
        "/tmp/ffmpeg-preset-1" = none ∧
    Task.procTask ⟨"abc", 0, "n", "x=1", "ffmpeg", []⟩ FS.empty "/tmp"
        "/tmp/ffmpeg-preset-1" "DATA" PresetOutcome.ok FfmpegOutcome.finished true
        (outputPath "/tmp" ⟨"abc", 0, "n", "x=1", "ffmpeg", []⟩) = none := by
  have h := procTask_cleanup ⟨"abc", 0, "n", "x=1", "ffmpeg", []⟩ FS.empty "/tmp"
    "/tmp/ffmpeg-preset-1" "DATA" PresetOutcome.ok FfmpegOutcome.finished true
    rfl rfl (by decide)
  exact ⟨h.1, h.2.2 (by simp)⟩

end Himawari
